import Mathlib

/-!
# Verification of the rent-accrual / balance engine of jammu-shuttering-store

Shallow embedding of the two balance-computation implementations of the
repository:

* the web implementation `calculate_customer_balance` (src/main.py), which
  parses raw transactions, sorts them by date with Python's stable sort,
  replays quantities, accrues rent between events and projects the open span
  up to "today", and subtracts the approved payments;
* the desktop implementation `calculate_customer_due_from_data` /
  `calculate_totals` (src/Jammu_Shuttering_Store.py), which accrues rent
  strictly between recorded events (closed ledger) and nets the cached
  `payment_received` total, the latter being maintained by
  `_save_payment_ledger`.

Modelling choices:
* Monetary amounts, rates and quantities are `ℚ`.  The Python code uses
  floats; every input appearing in the claims (small integers) is exactly
  representable, and the algebraic structure of the code (sums and products)
  is what the claims are about.
* Calendar dates are proleptic-Gregorian day ordinals (`Nat`), computed by
  `civilToDays`; Python's `date` subtraction `(d2 - d1).days` is the
  difference of such ordinals, modelled as `(d2 : Int) - d1`.
* A raw transaction's date is `Option Nat`: `none` stands for a date string
  that `datetime.strptime` rejects (or a missing key), which the code skips.
* A raw payment's amount is `Option Nat`-like `Option ℚ`: `none` stands for a
  missing or non-numeric value, which `safe_float` maps to the default `0`.
* Python's `list.sort` / `sorted` are stable; they are embedded as
  `List.mergeSort`, which is the same function (the unique stable sort).
-/

/-- Proleptic Gregorian day ordinal (days since 0000-03-01) of a civil date,
the standard `days_from_civil` algorithm restricted to years ≥ 1.  Differences
of ordinals equal Python's `(date2 - date1).days`. -/
def civilToDays (y m d : Nat) : Nat :=
  let y' := if m ≤ 2 then y - 1 else y
  let era := y' / 400
  let yoe := y' % 400
  let mp := (m + 9) % 12
  let doy := (153 * mp + 2) / 5 + d - 1
  let doe := yoe * 365 + yoe / 4 - yoe / 100 + doy
  era * 146097 + doe

/-! ## Web implementation (src/main.py, `calculate_customer_balance`) -/

/-- A raw transaction record as stored in the customer JSON, as read by
`calculate_customer_balance`: `tx["date"]` parsed by `strptime` (`none` =
unparseable or missing, the `except` branch), `tx.get("item", "")` and
`safe_float(tx.get("qty", 0))` already applied. -/
structure RawTx where
  date : Option Nat
  item : String
  qty : ℚ
deriving Repr, DecidableEq

/-- A parsed transaction tuple `(tx_date, item, qty)`. -/
structure TxP where
  date : Nat
  item : String
  qty : ℚ
deriving Repr, DecidableEq

/-- A raw payment record: `safe_float(p.get("amount", 0))` is
`amount.getD 0` (`none` = missing or non-numeric), `p.get("status")` is
`status` (`none` = key absent). -/
structure RawPayment where
  amount : Option ℚ
  status : Option String
deriving Repr, DecidableEq

/-- The fields of a customer record read by `calculate_customer_balance`.
`previous_balance` is `safe_float(customer.get("previous_balance", 0))`;
`items` are the `[name, rate]` entries (entries of length < 2 are dropped by
the comprehension's guard, rates already through `safe_float`). -/
structure WebCustomer where
  previous_balance : Option ℚ
  items : List (String × ℚ)
  transactions : List RawTx
  payment_history : List RawPayment
deriving Repr, DecidableEq

/-- The parsing loop: transactions with an unparseable date raise and are
skipped (`continue`); the rest become `(date, item, qty)` tuples in order. -/
def parseTxs (txs : List RawTx) : List TxP :=
  txs.filterMap fun t => t.date.map fun d => ⟨d, t.item, t.qty⟩

/-- Sorting step `parsed_transactions.sort(key=lambda x: x[0])`: Python's stable sort by
date, embedded as the stable `List.mergeSort`. -/
def normalizeTxs (txs : List TxP) : List TxP :=
  txs.mergeSort fun a b => a.date ≤ b.date

/-- Key set of the `item_daily_rents` dict: item names in insertion order,
first occurrence kept. -/
def ratedNames (items : List (String × ℚ)) : List String :=
  (items.map Prod.fst).dedup

/-- Rate lookup `item_daily_rents[name]`: Python dict comprehension keeps the LAST value
bound to a duplicated key, i.e. the first match in the reversed list. -/
def rateOfWeb (items : List (String × ℚ)) (n : String) : ℚ :=
  ((items.reverse).lookup n).getD 0

/-- Membership test `item_name in item_daily_rents`. -/
def isRated (items : List (String × ℚ)) (n : String) : Bool :=
  (items.map Prod.fst).contains n

/-- Pointwise update of the quantities dict,
`current_item_quantities[name] = v`. -/
def updQ (q : String → ℚ) (n : String) (v : ℚ) : String → ℚ :=
  fun m => if m = n then v else q m

/-- The inner accrual loop
`for item, count in current_item_quantities.items(): if count > 0 and item in
item_daily_rents: total += days * count * rate[item]` — the quantities dict's
key set is exactly `ratedNames items` throughout. -/
def interAccrual (items : List (String × ℚ)) (q : String → ℚ)
    (days : Int) : ℚ :=
  (ratedNames items).foldl
    (fun acc n => if 0 < q n then acc + (days : ℚ) * q n * rateOfWeb items n
                  else acc) 0

/-- Loop state of the web accrual fold: quantities dict, last processed date,
running `total_rent_accrued`. -/
structure WState where
  qty : String → ℚ
  last : Option Nat
  acc : ℚ

/-- One iteration of the web loop: accrue over the span from the last
processed date (guarded by `days_diff > 0`), then apply the quantity delta if
the item is rated, then remember the date. -/
def webStep (items : List (String × ℚ)) (st : WState) (e : TxP) : WState :=
  let acc :=
    match st.last with
    | none => st.acc
    | some ld =>
        let days : Int := (e.date : Int) - (ld : Int)
        if 0 < days then st.acc + interAccrual items st.qty days else st.acc
  let q :=
    if isRated items e.item then updQ st.qty e.item (st.qty e.item + e.qty)
    else st.qty
  ⟨q, some e.date, acc⟩

/-- The loop state after replaying the whole (already sorted) list, starting
from the all-zero quantities dict. -/
def webFinal (items : List (String × ℚ)) (txs : List TxP) : WState :=
  txs.foldl (webStep items) ⟨fun _ => 0, none, 0⟩

/-- Value of `total_rent_accrued` just before the open-span projection block: rent
accrued strictly between recorded events — the closed-ledger accrual. -/
def webClosed (items : List (String × ℚ)) (txs : List TxP) : ℚ :=
  (webFinal items (normalizeTxs txs)).acc

/-- Value of `total_rent_accrued` after the projection block: the closed accrual plus
the open span from the last event to `today` (guarded by
`days_since_last_tx > 0`) — the live accrual. -/
def webLive (items : List (String × ℚ)) (txs : List TxP) (today : Nat) : ℚ :=
  let st := webFinal items (normalizeTxs txs)
  match st.last with
  | none => st.acc
  | some ld =>
      let days : Int := (today : Int) - (ld : Int)
      if 0 < days then st.acc + interAccrual items st.qty days else st.acc

/-- Sum `approved_payments_sum`: the generator-expression sum of
`safe_float(p.get("amount", 0))` over payments with `status == "approved"`. -/
def approvedSum (ps : List RawPayment) : ℚ :=
  ps.foldl
    (fun acc p => if p.status = some "approved" then acc + p.amount.getD 0
                  else acc) 0

/-- Function `calculate_customer_balance(customer)` with `dt.date.today()` passed
explicitly as `today`. -/
def calculate_customer_balance (c : WebCustomer) (today : Nat) : ℚ :=
  let parsed := parseTxs c.transactions
  if parsed.isEmpty then
    c.previous_balance.getD 0 - approvedSum c.payment_history
  else
    c.previous_balance.getD 0 + webLive c.items parsed today -
      approvedSum c.payment_history

/-! ## Desktop implementation (src/Jammu_Shuttering_Store.py) -/

/-- A raw desktop transaction as read by `calculate_customer_due_from_data`:
the tuple `(strptime(tx["date"]), tx["item"], tx["qty"], tx["rent"])`, with
`none` for a date that raises `ValueError`/`TypeError` (skipped). -/
structure DRawTx where
  date : Option Nat
  item : String
  qty : ℚ
  rent : ℚ
deriving Repr, DecidableEq

/-- A parsed desktop transaction tuple `(date, item_name, qty, rent)`. -/
structure DTx where
  date : Nat
  item : String
  qty : ℚ
  rent : ℚ
deriving Repr, DecidableEq

/-- A payment entry as written by `_save_payment_ledger`
(no status field: the desktop ledger is "simplified without type/status"). -/
structure DPayment where
  id : String
  date : String
  amount : ℚ
  method : String
  reference : String
  notes : String
deriving Repr, DecidableEq

/-- The customer-record fields read by `calculate_customer_due_from_data` and
written by `_save_payment_ledger`.  `previous_balance` and `payment_received`
default to `0` via `.get(key, 0)`. -/
structure DRecord where
  previous_balance : Option ℚ
  payment_received : Option ℚ
  items : List (String × ℚ)
  transactions : List DRawTx
  payment_history : List DPayment
deriving Repr, DecidableEq

/-- The desktop parsing loop: unparseable dates are skipped (`continue`). -/
def dparseTxs (txs : List DRawTx) : List DTx :=
  txs.filterMap fun t => t.date.map fun d => ⟨d, t.item, t.qty, t.rent⟩

/-- Sorting step `sorted(transactions, key=lambda x: x[0])` — Python's stable sort. -/
def dsortTxs (txs : List DTx) : List DTx :=
  txs.mergeSort fun a b => a.date ≤ b.date

/-- Rate lookup `next((i[1] for i in items if i[0] == item), 0)`: the FIRST matching
item's rate, `0` when absent. -/
def rateOfDesk (items : List (String × ℚ)) (n : String) : ℚ :=
  (items.lookup n).getD 0

/-- The desktop inner accrual loop over `current_items.items()` (key set =
item names of `items`, first occurrence):
`if count > 0: rent_amount = days * count * rate; item_rents[item] += ...`.
The per-item dict `item_rents` is finally summed, so a scalar running total
is the same aggregate. -/
def dInterAccrual (items : List (String × ℚ)) (q : String → ℚ)
    (days : Int) : ℚ :=
  (ratedNames items).foldl
    (fun acc n => if 0 < q n then acc + (days : ℚ) * q n * rateOfDesk items n
                  else acc) 0

/-- The desktop main loop over the sorted transactions.  An event whose item
is not a key of `current_items` hits `continue`, skipping BOTH the quantity
update and the look-ahead accrual over `[date_i, date_{i+1}]`; a known item
is applied first, then rent accrues up to the next event's date (even when
the next event's own item is unknown).  The last event accrues nothing. -/
def dLoop (items : List (String × ℚ)) :
    List DTx → (String → ℚ) → ℚ → ℚ
  | [], _, acc => acc
  | e :: rest, q, acc =>
      if isRated items e.item then
        let q' := updQ q e.item (q e.item + e.qty)
        match rest with
        | [] => acc
        | e' :: _ =>
            dLoop items rest q'
              (acc + dInterAccrual items q' ((e'.date : Int) - (e.date : Int)))
      else dLoop items rest q acc

/-- Total `total_rent = sum(item_rents.values())` for a parsed transaction list:
sort, replay from the all-zero quantities dict. -/
def dTotalRent (items : List (String × ℚ)) (txs : List DTx) : ℚ :=
  dLoop items (dsortTxs txs) (fun _ => 0) 0

/-- State read by `calculate_totals(self)`: the UI state (`self.items`,
`self.transactions` already parsed, the `previous_balance` and
`payment_received` variables). -/
structure DState where
  items : List (String × ℚ)
  transactions : List DTx
  previous_balance : ℚ
  payment_received : ℚ
deriving Repr, DecidableEq

/-- Function `calculate_totals` returns
`(total_rent, previous_balance, payment_received, grand_total)`;
with no transactions, `(0, previous_balance, payment_received,
previous_balance - payment_received)`.  No clamp is applied. -/
def calculate_totals (st : DState) : ℚ × ℚ × ℚ × ℚ :=
  if st.transactions.isEmpty then
    (0, st.previous_balance, st.payment_received,
      st.previous_balance - st.payment_received)
  else
    let total_rent := dTotalRent st.items st.transactions
    (total_rent, st.previous_balance, st.payment_received,
      total_rent + st.previous_balance - st.payment_received)

/-- Function `calculate_customer_due_from_data(customer_data)`: parse, and in both the
no-transaction branch and the general branch clamp the result with
`max(..., 0)`. -/
def calculate_customer_due_from_data (r : DRecord) : ℚ :=
  let parsed := dparseTxs r.transactions
  if parsed.isEmpty then
    max (r.previous_balance.getD 0 - r.payment_received.getD 0) 0
  else
    max (dTotalRent r.items parsed + r.previous_balance.getD 0 -
      r.payment_received.getD 0) 0

/-- A row of the payment tree in `_save_payment_ledger`:
`values = (id, date, amount_text, method, reference, notes)`; `amount` is
`none` when `float(values[2]...)` raises, in which case the whole row is
skipped (`continue`). -/
structure PaymentRow where
  id : String
  date : String
  amount : Option ℚ
  method : String
  reference : String
  notes : String
deriving Repr, DecidableEq

/-- One iteration of the row loop of `_save_payment_ledger`: a row whose
amount text does not parse is skipped (`continue`); otherwise the payment is
appended and `total_received += amount`. -/
def ledgerStep (s : List DPayment × ℚ) (row : PaymentRow) :
    List DPayment × ℚ :=
  match row.amount with
  | none => s
  | some a =>
      (s.1 ++ [⟨row.id, row.date, a, row.method, row.reference, row.notes⟩],
        s.2 + a)

/-- The row loop of `_save_payment_ledger`: accumulate the parsed payments
and the running `total_received`. -/
def ledgerFold (rows : List PaymentRow) : List DPayment × ℚ :=
  rows.foldl ledgerStep ([], 0)

/-- Function `_save_payment_ledger`: overwrite `payment_history` with the parsed rows
and `payment_received` with their total. -/
def save_payment_ledger (data : DRecord) (rows : List PaymentRow) : DRecord :=
  let s := ledgerFold rows
  { data with payment_history := s.1, payment_received := some s.2 }

/-! ## Helper lemmas -/

/-- A guarded accumulating fold is the starting value plus the sum of the
selected summands. -/
theorem cond_foldl_eq_filter_sum {α : Type} (P : α → Prop) [DecidablePred P]
    (g : α → ℚ) :
    ∀ (l : List α) (a : ℚ),
      l.foldl (fun acc x => if P x then acc + g x else acc) a =
        a + ((l.filter fun x => P x).map g).sum := by
  intro l
  induction l with
  | nil => intro a; simp
  | cons x t ih =>
      intro a
      by_cases hx : P x
      · simp [List.filter_cons, hx, ih, add_assoc]
      · simp [List.filter_cons, hx, ih]

/-- Total value of the items currently held (positive quantity), at their
daily rates: the per-day accrual coefficient. -/
def heldValue (items : List (String × ℚ)) (q : String → ℚ) : ℚ :=
  (((ratedNames items).filter fun n => 0 < q n).map
    fun n => q n * rateOfWeb items n).sum

/-- The web inner accrual loop is linear in the day count. -/
theorem interAccrual_eq (items : List (String × ℚ)) (q : String → ℚ)
    (days : Int) :
    interAccrual items q days = (days : ℚ) * heldValue items q := by
  unfold interAccrual heldValue
  rw [cond_foldl_eq_filter_sum (fun n => 0 < q n)
    (fun n => (days : ℚ) * q n * rateOfWeb items n)]
  rw [zero_add, ← List.sum_map_mul_left]
  simp only [mul_assoc]

/-- The desktop counterpart of `heldValue`, with first-match rate lookup. -/
def heldValueDesk (items : List (String × ℚ)) (q : String → ℚ) : ℚ :=
  (((ratedNames items).filter fun n => 0 < q n).map
    fun n => q n * rateOfDesk items n).sum

/-- The desktop inner accrual loop is linear in the day count. -/
theorem dInterAccrual_eq (items : List (String × ℚ)) (q : String → ℚ)
    (days : Int) :
    dInterAccrual items q days = (days : ℚ) * heldValueDesk items q := by
  unfold dInterAccrual heldValueDesk
  rw [cond_foldl_eq_filter_sum (fun n => 0 < q n)
    (fun n => (days : ℚ) * q n * rateOfDesk items n)]
  rw [zero_add, ← List.sum_map_mul_left]
  simp only [mul_assoc]

/-- Filtering a duplicate-free list in which only `it` passes the predicate
yields `[it]`. -/
theorem filter_pos_singleton (q : String → ℚ) :
    ∀ (l : List String), l.Nodup → ∀ it, it ∈ l → 0 < q it →
      (∀ n ∈ l, n ≠ it → ¬ 0 < q n) →
      (l.filter fun n => 0 < q n) = [it] := by
  intro l
  induction l with
  | nil => intro _ it h; exact absurd h (List.not_mem_nil it)
  | cons x t ih =>
      intro hnd it hit hq hother
      rcases List.nodup_cons.mp hnd with ⟨hxt, hndt⟩
      rcases List.mem_cons.mp hit with hx | hxt'
      · subst hx
        have hfilt : (t.filter fun n => 0 < q n) = [] := by
          apply List.filter_eq_nil_iff.mpr
          intro n hn
          have hne : n ≠ it := fun h => hxt (h ▸ hn)
          simpa using hother n (List.mem_cons_of_mem _ hn) hne
        simp [List.filter_cons, hq, hfilt]
      · have hxne : x ≠ it := fun h => hxt (h ▸ hxt')
        have hnx : ¬ 0 < q x := hother x (List.mem_cons_self x t) hxne
        rw [List.filter_cons]
        simp only [hnx, decide_eq_true_eq, if_false, if_neg]
        exact ih hndt it hxt' hq
          (fun n hn hne => hother n (List.mem_cons_of_mem _ hn) hne)

/-- With non-negative rates, the held value is non-negative. -/
theorem heldValue_nonneg (items : List (String × ℚ)) (q : String → ℚ)
    (hr : ∀ n, 0 ≤ rateOfWeb items n) : 0 ≤ heldValue items q := by
  apply List.sum_nonneg
  intro x hx
  rcases List.mem_map.mp hx with ⟨n, hn, rfl⟩
  have hq : 0 < q n := by
    have := List.of_mem_filter hn
    simpa using this
  exact mul_nonneg hq.le (hr n)

/-- With non-negative rates, one web iteration never decreases the running
accrued total. -/
theorem webStep_acc_le (items : List (String × ℚ))
    (hr : ∀ n, 0 ≤ rateOfWeb items n) (st : WState) (e : TxP) :
    st.acc ≤ (webStep items st e).acc := by
  unfold webStep
  cases hl : st.last with
  | none => simp
  | some ld =>
      simp only
      split
      · rename_i hd
        have : 0 ≤ interAccrual items st.qty ((e.date : Int) - (ld : Int)) := by
          rw [interAccrual_eq]
          have hd' : (0 : ℚ) ≤ (((e.date : Int) - (ld : Int) : Int) : ℚ) := by
            exact_mod_cast hd.le
          exact mul_nonneg hd' (heldValue_nonneg items st.qty hr)
        linarith
      · exact le_refl _

/-- With non-negative rates, replaying any event list (sorted or not) never
decreases the running accrued total. -/
theorem foldl_webStep_acc_le (items : List (String × ℚ))
    (hr : ∀ n, 0 ≤ rateOfWeb items n) :
    ∀ (l : List TxP) (st : WState), st.acc ≤ (l.foldl (webStep items) st).acc := by
  intro l
  induction l with
  | nil => intro st; exact le_refl _
  | cons e t ih =>
      intro st
      calc st.acc ≤ (webStep items st e).acc := webStep_acc_le items hr st e
        _ ≤ (t.foldl (webStep items) (webStep items st e)).acc := ih _

/-- On an already date-sorted list the web normalization is the identity
(Python's stable sort does not move anything). -/
theorem normalizeTxs_of_sorted {txs : List TxP}
    (h : txs.Pairwise fun a b => a.date ≤ b.date) : normalizeTxs txs = txs :=
  List.mergeSort_of_sorted (List.Pairwise.imp (fun hab => decide_eq_true hab) h)

/-- On an already date-sorted list the desktop sort is the identity. -/
theorem dsortTxs_of_sorted {txs : List DTx}
    (h : txs.Pairwise fun a b => a.date ≤ b.date) : dsortTxs txs = txs :=
  List.mergeSort_of_sorted (List.Pairwise.imp (fun hab => decide_eq_true hab) h)

/-! ## Claim theorems -/

/-- C2: the claim that a transaction for an item absent from `items` never
changes the accrued rent FAILS on the desktop implementation: on the record
with item "Plate" at rate 50, rent 1 on day 0 and return 1 on day 10, the
accrued rent is 500, but inserting an unknown-item event ("Ghost", day 5)
makes `calculate_customer_due_from_data`'s loop hit `continue`, skipping the
accrual over the span from day 5 to day 10, and the accrued rent drops to
250.  (The web implementation `calculate_customer_balance` accrues before
the unknown-item check and is unaffected, matching the spec.) -/
theorem claim_unknown_item_desktop_eval :
    dTotalRent [("Plate", 50)]
      [⟨0, "Plate", 1, 50⟩, ⟨10, "Plate", -1, 0⟩] = 500 ∧
    dTotalRent [("Plate", 50)]
      [⟨0, "Plate", 1, 50⟩, ⟨5, "Ghost", 7, 0⟩, ⟨10, "Plate", -1, 0⟩] = 250 := by
  constructor
  · rw [dTotalRent, dsortTxs_of_sorted (by decide)]
    norm_num [dLoop, dInterAccrual, ratedNames, rateOfDesk, updQ, isRated]
  · rw [dTotalRent, dsortTxs_of_sorted (by decide)]
    norm_num [dLoop, dInterAccrual, ratedNames, rateOfDesk, updQ, isRated,
      show ("Ghost" : String) ≠ "Plate" from by decide,
      show ("Plate" : String) ≠ "Ghost" from by decide]

/-- C3, Scenario A: item "Plate" at daily rate 50, rent of 2 on 2024-01-01,
return of 2 on 2024-01-05; the closed-ledger accrual is exactly
(5−1) · 2 · 50 = 400 (the return day itself is not charged), both as the
`total_rent` of `calculate_totals` and through
`calculate_customer_due_from_data` on the full record. -/
theorem claim_scenario_a_closed_400 :
    (calculate_totals ⟨[("Plate", 50)],
      [⟨civilToDays 2024 1 1, "Plate", 2, 50⟩,
       ⟨civilToDays 2024 1 5, "Plate", -2, 0⟩], 0, 0⟩).1 = 400 ∧
    calculate_customer_due_from_data ⟨some 0, some 0, [("Plate", 50)],
      [⟨some (civilToDays 2024 1 1), "Plate", 2, 50⟩,
       ⟨some (civilToDays 2024 1 5), "Plate", -2, 0⟩], []⟩ = 400 := by
  have h1 : civilToDays 2024 1 1 = 739191 := by norm_num [civilToDays]
  have h5 : civilToDays 2024 1 5 = 739195 := by norm_num [civilToDays]
  have hrent : dTotalRent [("Plate", 50)]
      [⟨739191, "Plate", 2, 50⟩, ⟨739195, "Plate", -2, 0⟩] = 400 := by
    rw [dTotalRent, dsortTxs_of_sorted (by decide)]
    norm_num [dLoop, dInterAccrual, ratedNames, rateOfDesk, updQ, isRated]
  constructor
  · rw [h1, h5]
    simp only [calculate_totals, List.isEmpty_cons, if_false]
    exact hrent
  · rw [h1, h5]
    simp only [calculate_customer_due_from_data, dparseTxs, List.filterMap,
      Option.map_some]
    norm_num [hrent]

/-- Along the `_save_payment_ledger` row loop, the running total is always
the sum of the amounts of the payments accumulated so far. -/
theorem ledgerFold_total_inv :
    ∀ (rows : List PaymentRow) (ps : List DPayment) (t : ℚ),
      t = (ps.map DPayment.amount).sum →
      (rows.foldl ledgerStep (ps, t)).2 =
        ((rows.foldl ledgerStep (ps, t)).1.map DPayment.amount).sum := by
  intro rows
  induction rows with
  | nil => intro ps t h; simpa using h
  | cons row rest ih =>
      intro ps t h
      cases ha : row.amount with
      | none => simp only [List.foldl_cons, ledgerStep, ha]; exact ih ps t h
      | some a =>
          simp only [List.foldl_cons, ledgerStep, ha]
          exact ih _ _ (by simp [h])

/-- The `_save_payment_ledger` total is the sum of the amounts of the rows
that parse. -/
theorem ledgerFold_total_eq :
    ∀ (rows : List PaymentRow) (ps : List DPayment) (t : ℚ),
      (rows.foldl ledgerStep (ps, t)).2 =
        t + (rows.filterMap PaymentRow.amount).sum := by
  intro rows
  induction rows with
  | nil => intro ps t; simp
  | cons row rest ih =>
      intro ps t
      cases ha : row.amount with
      | none => simp [List.foldl_cons, ledgerStep, ha, ih]
      | some a => simp [List.foldl_cons, ledgerStep, ha, ih, add_assoc]

/-- The web approved-payments sum counts exactly the payments whose status
is the string "approved". -/
theorem approvedSum_eq (ps : List RawPayment) :
    approvedSum ps =
      ((ps.filter fun p => p.status = some "approved").map
        fun p => p.amount.getD 0).sum := by
  suffices h : ∀ (l : List RawPayment) (a : ℚ),
      l.foldl (fun acc p => if p.status = some "approved"
        then acc + p.amount.getD 0 else acc) a =
        a + ((l.filter fun p => p.status = some "approved").map
          fun p => p.amount.getD 0).sum by
    rw [approvedSum, h ps 0, zero_add]
  intro l
  induction l with
  | nil => intro a; simp
  | cons x t ih =>
      intro a
      by_cases hx : x.status = some "approved"
      · simp [List.filter_cons, hx, ih, add_assoc]
      · simp [List.filter_cons, hx, ih]

/-- C9: the desktop dashboard due is the display clamp `max(balance, 0)` of
the raw signed grand total that `calculate_totals` returns for the same
customer data, and the bill grand total itself is unclamped: it can be
negative (customer in credit), as on a customer with no transactions, no
previous balance and 700 received. -/
theorem claim_display_clamp :
    (∀ r : DRecord,
      calculate_customer_due_from_data r =
        max (calculate_totals ⟨r.items, dparseTxs r.transactions,
          r.previous_balance.getD 0, r.payment_received.getD 0⟩).2.2.2 0) ∧
    calculate_totals ⟨[], [], 0, 700⟩ = (0, 0, 700, -700) := by
  constructor
  · intro r
    simp only [calculate_customer_due_from_data, calculate_totals]
    split <;> rfl
  · norm_num [calculate_totals]

/-- C10: the desktop due computation reads the payment history only through
the cached `payment_received` total: records differing only in
`payment_history` get the same due; and `_save_payment_ledger` always stores
`payment_received` as exactly the sum of the amounts of the payment history
it saves. -/
theorem claim_payment_history_noninterference :
    (∀ (pb pr : Option ℚ) (items : List (String × ℚ))
        (txs : List DRawTx) (ph₁ ph₂ : List DPayment),
      calculate_customer_due_from_data ⟨pb, pr, items, txs, ph₁⟩ =
        calculate_customer_due_from_data ⟨pb, pr, items, txs, ph₂⟩) ∧
    (∀ (data : DRecord) (rows : List PaymentRow),
      (save_payment_ledger data rows).payment_received =
        some (((save_payment_ledger data rows).payment_history.map
          DPayment.amount).sum)) := by
  constructor
  · intro pb pr items txs ph₁ ph₂; rfl
  · intro data rows
    simp only [save_payment_ledger, ledgerFold]
    exact congrArg some (ledgerFold_total_inv rows [] 0 (by simp))

/-- C5: with an empty transaction list the web balance is the previous
balance minus the approved-payments sum, the desktop totals are
`(0, previous, received, previous − received)` (zero accrued rent), and in
particular Scenario B (previous balance 1000, payments 500 approved and 200
pending, approved-only policy) gives 1000 − 500 = 500. -/
theorem claim_no_transactions :
    (∀ (c : WebCustomer) (today : Nat), c.transactions = [] →
      calculate_customer_balance c today =
        c.previous_balance.getD 0 - approvedSum c.payment_history) ∧
    (∀ st : DState, st.transactions = [] →
      calculate_totals st = (0, st.previous_balance, st.payment_received,
        st.previous_balance - st.payment_received)) ∧
    (∀ today : Nat, calculate_customer_balance
      ⟨some 1000, [], [],
        [⟨some 500, some "approved"⟩, ⟨some 200, some "pending"⟩]⟩ today
      = 500) := by
  refine ⟨?_, ?_, ?_⟩
  · intro c today h
    simp [calculate_customer_balance, h, parseTxs]
  · intro st h
    simp [calculate_totals, h]
  · intro today
    norm_num [calculate_customer_balance, parseTxs, approvedSum, List.foldl,
      show (some "pending" : Option String) ≠ some "approved" from by decide]

/-- C6: the web aggregation (approved-only policy) sums exactly the payments
whose status equals "approved" — a payment with any other or absent status
can be inserted anywhere without changing the sum — while the desktop ledger
total (include-all policy, no status field) sums every row that parses. -/
theorem claim_payment_policies :
    (∀ ps : List RawPayment,
      approvedSum ps =
        ((ps.filter fun p => p.status = some "approved").map
          fun p => p.amount.getD 0).sum) ∧
    (∀ (ps₁ ps₂ : List RawPayment) (p : RawPayment),
      p.status ≠ some "approved" →
      approvedSum (ps₁ ++ p :: ps₂) = approvedSum (ps₁ ++ ps₂)) ∧
    (∀ rows : List PaymentRow,
      (ledgerFold rows).2 = (rows.filterMap PaymentRow.amount).sum) := by
  refine ⟨approvedSum_eq, ?_, ?_⟩
  · intro ps₁ ps₂ p h
    rw [approvedSum_eq, approvedSum_eq]
    simp [List.filter_append, List.filter_cons, h]
  · intro rows
    simpa using ledgerFold_total_eq rows [] 0

/-- C8: malformed records are skipped, never fatal, in the web computation: a
transaction whose date does not parse can be inserted anywhere without
changing the balance (the rest are still processed), a payment whose amount
is missing or non-numeric contributes zero to the aggregate (the rest are
still summed), and the computation returns a result on every input. -/
theorem claim_malformed_skipped :
    (∀ (pb : Option ℚ) (items : List (String × ℚ))
        (ph : List RawPayment) (t₁ t₂ : List RawTx) (tx : RawTx)
        (today : Nat), tx.date = none →
      calculate_customer_balance ⟨pb, items, t₁ ++ tx :: t₂, ph⟩ today =
        calculate_customer_balance ⟨pb, items, t₁ ++ t₂, ph⟩ today) ∧
    (∀ (ps₁ ps₂ : List RawPayment) (p : RawPayment), p.amount = none →
      approvedSum (ps₁ ++ p :: ps₂) = approvedSum (ps₁ ++ ps₂)) ∧
    (∀ (c : WebCustomer) (today : Nat),
      ∃ b, calculate_customer_balance c today = b) := by
  refine ⟨?_, ?_, ?_⟩
  · intro pb items ph t₁ t₂ tx today h
    have hp : parseTxs (t₁ ++ tx :: t₂) = parseTxs (t₁ ++ t₂) := by
      simp [parseTxs, List.filterMap_append, List.filterMap_cons, h]
    simp only [calculate_customer_balance, hp]
  · intro ps₁ ps₂ p h
    rw [approvedSum_eq, approvedSum_eq]
    by_cases hs : p.status = some "approved"
    · simp [List.filter_append, List.filter_cons, hs, h]
    · simp [List.filter_append, List.filter_cons, hs]
  · intro c today
    exact ⟨_, rfl⟩

/-- C7: non-positive day spans never subtract rent in the web computation: an
event not later than the last processed date leaves the running accrual
unchanged (the `days_diff > 0` guard clamps the span), an as-of date not
after the last event yields zero projected accrual (live equals closed), and
with non-negative rates the running accrued total never decreases along any
event list, sorted or not. -/
theorem claim_nonnegative_spans :
    (∀ (items : List (String × ℚ)) (st : WState) (e : TxP) (ld : Nat),
      st.last = some ld → (e.date : Int) - (ld : Int) ≤ 0 →
      (webStep items st e).acc = st.acc) ∧
    (∀ (items : List (String × ℚ)) (txs : List TxP) (today ld : Nat),
      (webFinal items (normalizeTxs txs)).last = some ld →
      (today : Int) ≤ (ld : Int) →
      webLive items txs today = webClosed items txs) ∧
    (∀ (items : List (String × ℚ)) (l : List TxP) (st : WState),
      (∀ n, 0 ≤ rateOfWeb items n) →
      st.acc ≤ (l.foldl (webStep items) st).acc) := by
  refine ⟨?_, ?_, fun items l st hr => foldl_webStep_acc_le items hr l st⟩
  · intro items st e ld h hle
    simp [webStep, h, show ¬ ((0:Int) < (e.date : Int) - (ld : Int)) from by omega]
  · intro items txs today ld h hle
    simp only [webLive, webClosed, h]
    rw [if_neg (by omega)]

/-- The key set of the rate dict has no duplicate names. -/
theorem ratedNames_nodup (items : List (String × ℚ)) :
    (ratedNames items).Nodup :=
  List.nodup_dedup _

/-- C4: closed versus live accrual.  If every rated item's held quantity is
zero after the last event and the as-of date is at or after the last event
date, the live accrual equals the closed accrual; if exactly one rated item
is still held with positive quantity, the live accrual exceeds the closed
one by exactly (asOf − lastEventDate) · heldQty · rate. -/
theorem claim_closed_vs_live :
    (∀ (items : List (String × ℚ)) (txs : List TxP) (today ld : Nat),
      (webFinal items (normalizeTxs txs)).last = some ld →
      (∀ n ∈ ratedNames items, (webFinal items (normalizeTxs txs)).qty n = 0) →
      (ld : Int) ≤ (today : Int) →
      webLive items txs today = webClosed items txs) ∧
    (∀ (items : List (String × ℚ)) (txs : List TxP) (today ld : Nat)
        (it : String),
      (webFinal items (normalizeTxs txs)).last = some ld →
      it ∈ ratedNames items →
      0 < (webFinal items (normalizeTxs txs)).qty it →
      (∀ n ∈ ratedNames items, n ≠ it →
        ¬ 0 < (webFinal items (normalizeTxs txs)).qty n) →
      (ld : Int) ≤ (today : Int) →
      webLive items txs today = webClosed items txs +
        ((today : ℚ) - (ld : ℚ)) *
          (webFinal items (normalizeTxs txs)).qty it * rateOfWeb items it) := by
  constructor
  · intro items txs today ld h hz hle
    simp only [webLive, webClosed, h]
    split
    · have hheld : heldValue items (webFinal items (normalizeTxs txs)).qty = 0 := by
        unfold heldValue
        have : ((ratedNames items).filter
            fun n => 0 < (webFinal items (normalizeTxs txs)).qty n) = [] := by
          apply List.filter_eq_nil_iff.mpr
          intro n hn
          simp [hz n hn]
        rw [this]
        simp
      rw [interAccrual_eq, hheld]
      ring
    · rfl
  · intro items txs today ld it h hit hpos hother hle
    simp only [webLive, webClosed, h]
    split
    · rename_i hd
      rw [interAccrual_eq]
      have hheld : heldValue items (webFinal items (normalizeTxs txs)).qty =
          (webFinal items (normalizeTxs txs)).qty it * rateOfWeb items it := by
        unfold heldValue
        rw [filter_pos_singleton _ _ (ratedNames_nodup items) it hit hpos hother]
        simp
      rw [hheld]
      push_cast
      ring
    · rename_i hd
      have htoday : today = ld := by omega
      subst htoday
      simp

/-- C1: transaction normalization sorts ascending by date with a stable
sort: the output is sorted, any date-ordered pair of events (in particular
two same-day events in recorded order) survives as a sublist, and in the
same-day scenario — rent 3 then return 1 of "Plate" recorded on the same day
`d`, then a final return on a later day `d'` — the replay holds quantity 2
over the subsequent interval, accruing (d' − d) · 2 · rate, not 3 or −1
times the rate. -/
theorem claim_stable_sort_same_day :
    (∀ txs : List TxP,
      (normalizeTxs txs).Pairwise fun a b => a.date ≤ b.date) ∧
    (∀ (txs : List TxP) (e₁ e₂ : TxP), e₁.date = e₂.date →
      List.Sublist [e₁, e₂] txs →
      List.Sublist [e₁, e₂] (normalizeTxs txs)) ∧
    (∀ (r : ℚ) (d d' : Nat), d < d' →
      webClosed [("Plate", r)]
        [⟨d, "Plate", 3⟩, ⟨d, "Plate", -1⟩, ⟨d', "Plate", -2⟩] =
        ((d' : ℚ) - (d : ℚ)) * 2 * r) := by
  refine ⟨?_, ?_, ?_⟩
  · intro txs
    have h := @List.sorted_mergeSort TxP
      (fun a b : TxP => decide (a.date ≤ b.date))
      (fun a b c hab hbc => by
        simp only [decide_eq_true_eq] at *; omega)
      (fun a b => by
        simp only [Bool.or_eq_true, decide_eq_true_eq]; omega) txs
    exact h.imp fun hab => of_decide_eq_true hab
  · intro txs e₁ e₂ hdate hsub
    apply List.sublist_mergeSort
      (fun a b c hab hbc => by
        simp only [decide_eq_true_eq] at *; omega)
      (fun a b => by
        simp only [Bool.or_eq_true, decide_eq_true_eq]; omega)
      ?_ hsub
    exact List.pairwise_cons.mpr
      ⟨fun e he => by
        simp only [List.mem_singleton] at he
        subst he
        exact decide_eq_true (le_of_eq hdate),
       List.pairwise_singleton _ _⟩
  · intro r d d' h
    have hsort : normalizeTxs
        [⟨d, "Plate", 3⟩, ⟨d, "Plate", -1⟩, ⟨d', "Plate", -2⟩] =
        [⟨d, "Plate", 3⟩, ⟨d, "Plate", -1⟩, ⟨d', "Plate", -2⟩] :=
      normalizeTxs_of_sorted (by
        refine List.pairwise_cons.mpr ⟨?_, List.pairwise_cons.mpr
          ⟨?_, List.pairwise_singleton _ _⟩⟩
        · intro e he
          simp only [List.mem_cons, List.not_mem_nil, or_false] at he
          rcases he with rfl | rfl
          · exact le_refl d
          · exact h.le
        · intro e he
          simp only [List.mem_cons, List.not_mem_nil, or_false] at he
          subst he
          exact h.le)
    rw [webClosed, hsort]
    norm_num [webFinal, List.foldl_cons, List.foldl_nil, webStep,
      isRated, updQ, interAccrual, ratedNames, rateOfWeb,
      show ¬ ((0:Int) < (d:Int) - (d:Int)) from by omega,
      show (0:Int) < (d':Int) - (d:Int) from by omega]

/-- Witness for C1: two same-day events survive normalization in recorded
order, and the same-day scenario at rate 50, days 0 and 4, accrues 400. -/
theorem claim_stable_sort_same_day_witness :
    List.Sublist [(⟨5, "A", 1⟩ : TxP), ⟨5, "B", 2⟩]
      (normalizeTxs [⟨5, "A", 1⟩, ⟨5, "B", 2⟩]) ∧
    webClosed [("Plate", 50)]
      [⟨0, "Plate", 3⟩, ⟨0, "Plate", -1⟩, ⟨4, "Plate", -2⟩] =
      ((4 : ℚ) - (0 : ℚ)) * 2 * 50 :=
  ⟨claim_stable_sort_same_day.2.1 [⟨5, "A", 1⟩, ⟨5, "B", 2⟩]
      ⟨5, "A", 1⟩ ⟨5, "B", 2⟩ rfl (List.Sublist.refl _),
   claim_stable_sort_same_day.2.2 50 0 4 (by norm_num)⟩

/-- Witness for C4: a fully returned item gives equal live and closed
accrual; a still-held item gives live = closed + days · qty · rate. -/
theorem claim_closed_vs_live_witness :
    webLive [("Plate", 50)] [⟨0, "Plate", 2⟩, ⟨2, "Plate", -2⟩] 5 =
      webClosed [("Plate", 50)] [⟨0, "Plate", 2⟩, ⟨2, "Plate", -2⟩] ∧
    webLive [("Plate", 50)] [⟨4, "Plate", 2⟩] 7 =
      webClosed [("Plate", 50)] [⟨4, "Plate", 2⟩] +
        ((7 : ℚ) - (4 : ℚ)) *
          (webFinal [("Plate", 50)]
            (normalizeTxs [⟨4, "Plate", 2⟩])).qty "Plate" *
          rateOfWeb [("Plate", 50)] "Plate" := by
  have hs2 : normalizeTxs [(⟨0, "Plate", 2⟩ : TxP), ⟨2, "Plate", -2⟩] =
      [⟨0, "Plate", 2⟩, ⟨2, "Plate", -2⟩] :=
    normalizeTxs_of_sorted (by decide)
  refine ⟨claim_closed_vs_live.1 [("Plate", 50)]
      [⟨0, "Plate", 2⟩, ⟨2, "Plate", -2⟩] 5 2 ?_ ?_ (by decide),
    claim_closed_vs_live.2 [("Plate", 50)] [⟨4, "Plate", 2⟩] 7 4 "Plate"
      ?_ (by decide) ?_ ?_ (by decide)⟩
  · rw [webFinal, hs2]
    norm_num [webStep]
  · intro n hn
    simp only [ratedNames, List.map_cons, List.map_nil, List.dedup_cons_of_not_mem,
      List.not_mem_nil, not_false_iff, List.dedup_nil, List.mem_singleton] at hn
    subst hn
    rw [webFinal, hs2]
    norm_num [webStep, updQ, isRated]
  · rw [webFinal]
    norm_num [normalizeTxs, webStep]
  · rw [webFinal]
    norm_num [normalizeTxs, webStep, updQ, isRated]
  · intro n hn hne
    exfalso
    apply hne
    simpa [ratedNames] using hn

/-- Witness for C5: concrete no-transaction customers on both sides. -/
theorem claim_no_transactions_witness :
    calculate_customer_balance ⟨some 7, [], [], []⟩ 0 = 7 - approvedSum [] ∧
    calculate_totals ⟨[], [], 5, 2⟩ = (0, 5, 2, 5 - 2) :=
  ⟨claim_no_transactions.1 ⟨some 7, [], [], []⟩ 0 rfl,
   claim_no_transactions.2.1 ⟨[], [], 5, 2⟩ rfl⟩

/-- Witness for C6: a pending payment leaves the approved sum unchanged. -/
theorem claim_payment_policies_witness :
    approvedSum ([] ++ (⟨some 200, some "pending"⟩ : RawPayment) :: []) =
      approvedSum ([] ++ []) :=
  claim_payment_policies.2.1 [] [] ⟨some 200, some "pending"⟩ (by decide)

/-- Witness for C7: concrete non-positive spans and a concrete fold. -/
theorem claim_nonnegative_spans_witness :
    (webStep [("Plate", 50)] ⟨fun _ => 0, some 5, 0⟩ ⟨3, "X", 1⟩).acc =
      (⟨fun _ => 0, some 5, (0 : ℚ)⟩ : WState).acc ∧
    webLive [("Plate", 50)] [⟨4, "Plate", 1⟩] 2 =
      webClosed [("Plate", 50)] [⟨4, "Plate", 1⟩] ∧
    (⟨fun _ => 0, none, (0 : ℚ)⟩ : WState).acc ≤
      (List.foldl (webStep [("Plate", 50)])
        ⟨fun _ => 0, none, 0⟩ [⟨1, "Plate", 2⟩, ⟨3, "Plate", -2⟩]).acc := by
  refine ⟨claim_nonnegative_spans.1 [("Plate", 50)] _ _ 5 rfl (by decide),
    claim_nonnegative_spans.2.1 [("Plate", 50)] [⟨4, "Plate", 1⟩] 2 4 ?_ (by decide),
    claim_nonnegative_spans.2.2 [("Plate", 50)] _ _ ?_⟩
  · rw [webFinal]
    norm_num [normalizeTxs, webStep]
  · intro n
    simp only [rateOfWeb, List.reverse_cons, List.reverse_nil, List.nil_append,
      List.lookup_cons]
    split
    · norm_num
    · simp

/-- Witness for C8: a bad-date transaction and a bad-amount payment. -/
theorem claim_malformed_skipped_witness :
    calculate_customer_balance ⟨none, [], [] ++ ⟨none, "", 0⟩ :: [], []⟩ 0 =
      calculate_customer_balance ⟨none, [], [] ++ [], []⟩ 0 ∧
    approvedSum ([] ++ (⟨none, some "approved"⟩ : RawPayment) :: []) =
      approvedSum ([] ++ []) :=
  ⟨claim_malformed_skipped.1 none [] [] [] [] ⟨none, "", 0⟩ 0 rfl,
   claim_malformed_skipped.2.1 [] [] ⟨none, some "approved"⟩ rfl⟩
